import Mathlib

/-!
Verification development for the tuya-energy-consumption-api repository.

The development shallow-embeds the core pipeline of the service:

* `src/services/energy-processor.ts` — the tariff classifier
  (`NorthMacedoniaTariffRules.isLowTariff`) and the aggregation engine
  (`EnergyProcessor.processEnergyLogs`);
* `src/services/tuya-api.ts` — the paginated log fetch
  (`TuyaApiService.getDeviceLogs`).

Modelling conventions:

* JavaScript numbers holding epoch timestamps are modelled as `Int`
  (all arithmetic performed on them in the source is exact integer
  arithmetic); energy values (`parseFloat(log.value)` and the kWh
  accumulators) are modelled as exact rationals `ℚ`.
* The JS runtime's calendar (`Date`, `Intl` with time zone
  `Europe/Skopje`) is embedded by explicit proleptic-Gregorian
  calendar arithmetic (`civilFromDays` / `daysFromCivil`) together
  with the EU daylight-saving rule for the Europe/Skopje zone.
  `Date.prototype.getFullYear` is evaluated in UTC, matching the
  Cloudflare Workers runtime the service deploys to.
* The D1 `DailyConsumption` table is modelled as a list of rows; the
  SQL operations used by the processor (`MAX(last_processed_timestamp)`
  for a device, select by `(date, device_id)`, insert, update) are
  modelled directly on that list.
* Network effects are abstracted: the remote log batch delivered to
  `processEnergyLogs` is a parameter, and the paginated fetch is
  modelled as a function of the sequence of server page responses.
-/

/-- Conversion from a day count since 1970-01-01 to a proleptic-Gregorian
civil date `(year, month, day)`, as performed by the JS `Date` runtime. -/
def civilFromDays (z : Int) : Int × Int × Int :=
  let z1 := z + 719468
  let era := z1 / 146097
  let doe := z1 - era * 146097
  let yoe := (doe - doe / 1460 + doe / 36524 - doe / 146096) / 365
  let y0 := yoe + era * 400
  let doy := doe - (365 * yoe + yoe / 4 - yoe / 100)
  let mp := (5 * doy + 2) / 153
  let d := doy - (153 * mp + 2) / 5 + 1
  let m := mp + (if mp < 10 then 3 else -9)
  (y0 + (if m ≤ 2 then 1 else 0), m, d)

/-- Conversion from a proleptic-Gregorian civil date to a day count since
1970-01-01 (inverse of `civilFromDays`). -/
def daysFromCivil (y m d : Int) : Int :=
  let y1 := y - (if m ≤ 2 then 1 else 0)
  let era := y1 / 400
  let yoe := y1 - era * 400
  let mp := if m ≤ 2 then m + 9 else m - 3
  let doy := (153 * mp + 2) / 5 + d - 1
  let doe := yoe * 365 + yoe / 4 - yoe / 100 + doy
  era * 146097 + doe - 719468

def msPerDay : Int := 86400000

/-- Day count since the epoch of an epoch-millisecond instant (floor). -/
def epochDay (ms : Int) : Int := ms / msPerDay

/-- UTC calendar year of an epoch-millisecond instant; this is what
`new Date(ms).getFullYear()` returns on a UTC-clock runtime. -/
def yearOfEpochMs (ms : Int) : Int := (civilFromDays (epochDay ms)).1

/-- Weekday of a day count since the epoch, `0 = Sunday … 6 = Saturday`
(1970-01-01 was a Thursday). -/
def weekdayOfDay (z : Int) : Int := (z + 4) % 7

/-- Day-of-month of the last Sunday of a 31-day month. -/
def lastSundayOfMonth31 (y m : Int) : Int :=
  31 - weekdayOfDay (daysFromCivil y m 31)

/-- EU daylight-saving rule used by the Europe/Skopje zone: DST is in
effect from 01:00 UTC on the last Sunday of March until 01:00 UTC on the
last Sunday of October. -/
def isSkopjeDST (ms : Int) : Bool :=
  let y := yearOfEpochMs ms
  let dstStart := daysFromCivil y 3 (lastSundayOfMonth31 y 3) * msPerDay + 3600000
  let dstEnd := daysFromCivil y 10 (lastSundayOfMonth31 y 10) * msPerDay + 3600000
  decide (dstStart ≤ ms ∧ ms < dstEnd)

/-- UTC offset (in ms) of the Europe/Skopje zone at a given instant:
UTC+2 during DST, UTC+1 otherwise. -/
def skopjeOffsetMs (ms : Int) : Int := if isSkopjeDST ms then 7200000 else 3600000

/-- Epoch-ms shifted so that UTC calendar arithmetic yields the
Europe/Skopje wall clock. -/
def skopjeLocalMs (ms : Int) : Int := ms + skopjeOffsetMs ms

/-- Local (Europe/Skopje) calendar day count of an instant. -/
def skopjeLocalDay (ms : Int) : Int := epochDay (skopjeLocalMs ms)

/-- Local (Europe/Skopje) wall-clock hour of an instant, as extracted by
`toLocaleString("en-US", { timeZone: "Europe/Skopje", hour: "2-digit", hour12: false })`. -/
def skopjeHour (ms : Int) : Int := (skopjeLocalMs ms % msPerDay) / 3600000

/-- Local (Europe/Skopje) weekday of an instant, `0 = Sunday … 6 = Saturday`,
as produced by the `dayMap` lookup in `NorthMacedoniaTariffRules`. -/
def skopjeWeekday (ms : Int) : Int := weekdayOfDay (skopjeLocalDay ms)

/-- Zero-padding to two digits, as in the `en-CA` date format. -/
def pad2 (n : Int) : String := if n < 10 then "0" ++ toString n else toString n

/-- Local calendar-date key `YYYY-MM-DD` of an instant in the Europe/Skopje
zone; this is `date.toLocaleDateString("en-CA", { timeZone: "Europe/Skopje" })`
in `processEnergyLogs`. -/
def skopjeDateKey (ms : Int) : String :=
  let c := civilFromDays (skopjeLocalDay ms)
  toString c.1 ++ "-" ++ pad2 c.2.1 ++ "-" ++ pad2 c.2.2

/-- Embedding of `NorthMacedoniaTariffRules.isLowTariff`, evaluated on the
already-extracted Europe/Skopje weekday (`0 = Sunday … 6 = Saturday`) and
wall-clock hour, mirroring the three rule blocks of the source:
weekend window (Saturday ≥ 22:00, all Sunday, Monday < 07:00), midday
window `[13, 15)`, nightly window (hour ≥ 22 or hour < 7). -/
def isLowTariff (day hour : Int) : Bool :=
  if (day = 6 ∧ 22 ≤ hour) ∨ day = 0 ∨ (day = 1 ∧ hour < 7) then true
  else if 13 ≤ hour ∧ hour < 15 then true
  else if 22 ≤ hour ∨ hour < 7 then true
  else false

/-- Tariff classification of an absolute instant: the source calls
`isLowTariff(date)` which internally extracts the Skopje weekday and hour. -/
def isLowTariffAt (ms : Int) : Bool := isLowTariff (skopjeWeekday ms) (skopjeHour ms)

/-- Embedding of the `TuyaLogEntry` interface of `tuya-api.ts`; `value` is
the numeric string field, modelled by the rational it denotes
(`parseFloat(log.value)`). -/
structure TuyaLogEntry where
  code : String
  event_time : Int
  value : ℚ
deriving DecidableEq, Repr

/-- Seconds-to-milliseconds normalization of `processEnergyLogs` step 3:
`if (timestamp < 1e12) timestamp = timestamp * 1000`. -/
def normalizeTs (t : Int) : Int := if t < 1000000000000 then t * 1000 else t

/-- Per-day accumulator of `processEnergyLogs` (`dailyAggregates[dateKey]`). -/
structure DayAgg where
  lowTariffKwh : ℚ
  highTariffKwh : ℚ
  lastProcessedTimestamp : Int
deriving DecidableEq, Repr

/-- Lookup `dailyAggregates[dateKey]` in the aggregate association list. -/
def findAgg (aggs : List (String × DayAgg)) (k : String) : Option DayAgg :=
  (aggs.find? (fun kd => kd.1 == k)).map (fun kd => kd.2)

/-- Assignment `dailyAggregates[dateKey] = d`: replaces the entry in place
when the key is present, appends otherwise (JS object insertion order). -/
def setAgg : List (String × DayAgg) → String → DayAgg → List (String × DayAgg)
  | [], k, d => [(k, d)]
  | kd :: rest, k, d => if kd.1 == k then (k, d) :: rest else kd :: setAgg rest k d

/-- Loop body of `processEnergyLogs` step 3 for one log entry: normalize
the timestamp, skip the entry when its UTC year is outside
`[2020, currentYear + 1]`, otherwise bucket it by Skopje calendar date,
raise the bucket's per-day maximum timestamp, classify the tariff and add
`parseFloat(log.value) / 1000` kWh to the matching accumulator. -/
def processLog (currentYear : Int) (aggs : List (String × DayAgg))
    (log : TuyaLogEntry) : List (String × DayAgg) :=
  let timestamp := normalizeTs log.event_time
  let valueKwh := log.value / 1000
  let dateYear := yearOfEpochMs timestamp
  if dateYear < 2020 ∨ currentYear + 1 < dateYear then aggs
  else
    let dateKey := skopjeDateKey timestamp
    let cur0 := (findAgg aggs dateKey).getD ⟨0, 0, 0⟩
    let cur1 := if cur0.lastProcessedTimestamp < timestamp then
        { cur0 with lastProcessedTimestamp := timestamp } else cur0
    let cur2 := if isLowTariffAt timestamp then
        { cur1 with lowTariffKwh := cur1.lowTariffKwh + valueKwh }
      else
        { cur1 with highTariffKwh := cur1.highTariffKwh + valueKwh }
    setAgg aggs dateKey cur2

/-- Aggregation of a batch of surviving logs (`for (const log of newLogs)`). -/
def aggregate (currentYear : Int) (logs : List TuyaLogEntry) : List (String × DayAgg) :=
  logs.foldl (processLog currentYear) []

/-- Insertion of an aggregate entry into a key-sorted list, keeping
ascending date-key order (ties keep the earlier entry first). -/
def insertSorted (kd : String × DayAgg) :
    List (String × DayAgg) → List (String × DayAgg)
  | [] => [kd]
  | kd2 :: rest =>
    if kd.1 ≤ kd2.1 then kd :: kd2 :: rest else kd2 :: insertSorted kd rest

/-- Stable sort of the aggregate entries by ascending date key, embedding
`Object.entries(dailyAggregates).sort(([a], [b]) => a.localeCompare(b))`
of step 4. -/
def sortByKey : List (String × DayAgg) → List (String × DayAgg)
  | [] => []
  | kd :: rest => insertSorted kd (sortByKey rest)

/-- Row of the `DailyConsumption` table (the columns the processor touches). -/
structure BucketRow where
  date : String
  deviceId : String
  lowTariffKwh : ℚ
  highTariffKwh : ℚ
  lastProcessedTimestamp : Int
deriving DecidableEq, Repr

/-- SQL `MAX(last_processed_timestamp) WHERE device_id = dev`: `none` when
the device has no rows. -/
def maxWatermark : List BucketRow → String → Option Int
  | [], _ => none
  | r :: rs, dev =>
    let rest := maxWatermark rs dev
    if r.deviceId == dev then
      match rest with
      | none => some r.lastProcessedTimestamp
      | some w => some (max r.lastProcessedTimestamp w)
    else rest

/-- Row predicate of the upsert lookup `WHERE date = k AND device_id = dev`. -/
def bucketMatches (k dev : String) (r : BucketRow) : Bool :=
  r.date == k && r.deviceId == dev

/-- Select of the existing `(date, deviceId)` bucket row. -/
def getBucket (st : List BucketRow) (k dev : String) : Option BucketRow :=
  st.find? (bucketMatches k dev)

/-- Field update applied by the `UPDATE` branch of the upsert: totals are
additively merged, `lastProcessedTimestamp` is replaced by the new per-day
maximum. -/
def applyUpdate (d : DayAgg) (r : BucketRow) : BucketRow :=
  { r with
    lowTariffKwh := r.lowTariffKwh + d.lowTariffKwh,
    highTariffKwh := r.highTariffKwh + d.highTariffKwh,
    lastProcessedTimestamp := d.lastProcessedTimestamp }

/-- Update of the first row matching `(date, deviceId)` — the unique one
under the table's `UNIQUE(date, device_id)` index. -/
def updateFirst (k dev : String) (d : DayAgg) : List BucketRow → List BucketRow
  | [] => []
  | r :: rs =>
    if bucketMatches k dev r then applyUpdate d r :: rs
    else r :: updateFirst k dev d rs

/-- Row built by the `INSERT` branch of the upsert. -/
def insertRow (k dev : String) (d : DayAgg) : BucketRow :=
  { date := k, deviceId := dev, lowTariffKwh := d.lowTariffKwh,
    highTariffKwh := d.highTariffKwh,
    lastProcessedTimestamp := d.lastProcessedTimestamp }

/-- Upsert of one day bucket (`processEnergyLogs` step 4 loop body). -/
def upsertBucket (dev k : String) (d : DayAgg) (st : List BucketRow) : List BucketRow :=
  match getBucket st k dev with
  | some _ => updateFirst k dev d st
  | none => st ++ [insertRow k dev d]

/-- Persistence of the sorted aggregates (`for (const [dateKey, data] of sortedEntries)`). -/
def persist (dev : String) (st : List BucketRow)
    (entries : List (String × DayAgg)) : List BucketRow :=
  entries.foldl (fun s kd => upsertBucket dev kd.1 kd.2 s) st

/-- Step 1 of `processEnergyLogs`: `forceStartTimestamp || 0`, and when
`!forceStartTimestamp` (absent or the explicit value 0) the stored
watermark is read (`result && result.lastTs` keeps 0 on a null/zero read). -/
def lastProcessedTs (st : List BucketRow) (dev : String) (force : Option Int) : Int :=
  match force with
  | some f => if f = 0 then (maxWatermark st dev).getD 0 else f
  | none => (maxWatermark st dev).getD 0

/-- Guard of the watermark read in step 1: the DB query runs exactly when
`!forceStartTimestamp`, i.e. when the argument is absent or exactly 0. -/
def readsStoredWatermark (force : Option Int) : Bool :=
  match force with
  | some f => f == 0
  | none => true

/-- Value passed as `start` to `getDeviceLogConvenience`:
`lastProcessedTimestamp > 0 ? Math.floor(lastProcessedTimestamp / 1000) : -7`. -/
def fetchWindowStart (st : List BucketRow) (dev : String) (force : Option Int) : Int :=
  let lastTs := lastProcessedTs st dev force
  if 0 < lastTs then lastTs / 1000 else -7

/-- Filter to the energy-increment event code (`log.code === "add_ele"`). -/
def addEleLogs (logs : List TuyaLogEntry) : List TuyaLogEntry :=
  logs.filter (fun l => l.code == "add_ele")

/-- Logs surviving step 2's filtering: the `add_ele` filter, then — except
in the forced-reprocess mode `forceStartTimestamp === 0` — the stale filter
`log.event_time > lastProcessedTimestamp` (note: on the raw `event_time`,
before the seconds-to-milliseconds normalization). -/
def survivingLogs (st : List BucketRow) (dev : String) (force : Option Int)
    (logs : List TuyaLogEntry) : List TuyaLogEntry :=
  let lastTs := lastProcessedTs st dev force
  let adds := addEleLogs logs
  if force = some 0 then adds
  else adds.filter (fun l => lastTs < l.event_time)

/-- Embedding of `EnergyProcessor.processEnergyLogs`, parameterized by the
current UTC year (`new Date().getFullYear()`), the stored table state, the
device id, the optional forced start timestamp and the batch of raw log
entries the remote fetch delivers. Returns the new table state and the
status string. -/
def processEnergyLogs (currentYear : Int) (st : List BucketRow) (dev : String)
    (force : Option Int) (remoteLogs : List TuyaLogEntry) :
    List BucketRow × String :=
  let newLogs := survivingLogs st dev force remoteLogs
  if newLogs.length = 0 then (st, "No new logs.")
  else
    let entries := sortByKey (aggregate currentYear newLogs)
    (persist dev st entries, "Scheduled task completed successfully.")

/-- Result body of one page of `GET /devices/{id}/logs`; an absent or empty
continuation key is modelled by `""` (both are falsy in the source's checks),
and `has_next` keeps its possibly-absent nature (`!== undefined` test). -/
structure TuyaLogResult where
  logs : List TuyaLogEntry
  has_next : Option Bool
  next_row_key : String
deriving DecidableEq, Repr

/-- One page response of the remote API (`success` flag plus optional body). -/
structure TuyaApiResponse where
  success : Bool
  result : Option TuyaLogResult
deriving DecidableEq, Repr

/-- Effective fetch ceiling: `maxFetches && maxFetches >= 1 ? maxFetches : 50`. -/
def effMaxFetches (maxFetches : Nat) : Nat :=
  if 1 ≤ maxFetches then maxFetches else 50

/-- Continuation condition of the pagination `while` loop of
`TuyaApiService.getDeviceLogs` (minus the fetch-count test, handled by the
fuel argument of `fetchLoop`). -/
def continueFetch (wantSize : Nat) (result : TuyaLogResult) (nextRowKey : String) : Bool :=
  result.has_next.getD false &&
  (wantSize == 0 || decide (result.logs.length < wantSize)) &&
  !(result.next_row_key == "") &&
  !(nextRowKey == result.next_row_key)

/-- Merge of a follow-up page into the accumulated result: logs are
concatenated; `has_next` is overwritten only when present in the new page;
`next_row_key` only when truthy (non-empty). -/
def mergeResult (acc r2 : TuyaLogResult) : TuyaLogResult :=
  { logs := acc.logs ++ r2.logs,
    has_next := match r2.has_next with | some b => some b | none => acc.has_next,
    next_row_key := if r2.next_row_key == "" then acc.next_row_key
                    else r2.next_row_key }

/-- Pagination loop of `getDeviceLogs`: `remaining` is `maxFetchesRemaining`,
`i` indexes the follow-up server responses, `nextRowKey` is the previously
used continuation cursor and `fetches` the count of requests issued so far.
A follow-up response without a `result` body ends the loop (`break`) — its
`success` flag is never consulted. -/
def fetchLoop (pages : Nat → TuyaApiResponse) (wantSize : Nat) :
    Nat → Nat → TuyaLogResult → String → Nat → TuyaLogResult × Nat
  | 0, _, result, _, fetches => (result, fetches)
  | remaining + 1, i, result, nextRowKey, fetches =>
    if continueFetch wantSize result nextRowKey then
      match (pages i).result with
      | none => (result, fetches + 1)
      | some result2 =>
        fetchLoop pages wantSize remaining (i + 1) (mergeResult result result2)
          result.next_row_key (fetches + 1)
    else (result, fetches)

/-- Embedding of `TuyaApiService.getDeviceLogs`: the first page response and
the stream of follow-up responses are parameters. Only the first response's
`success` flag is checked; on failure the call throws (`Except.error`) and
nothing is returned. On success the pagination loop runs with
`effMaxFetches - 1` remaining fetches; the pair holds the merged result (if
the first page had one) and the total number of requests issued. -/
def getDeviceLogs (firstResponse : TuyaApiResponse) (pages : Nat → TuyaApiResponse)
    (size : Nat) (maxFetches : Nat) : Except String (Option TuyaLogResult × Nat) :=
  if !firstResponse.success then
    Except.error "Failed to get device logs"
  else
    match firstResponse.result with
    | none => Except.ok (none, 1)
    | some result =>
      let r := fetchLoop pages size (effMaxFetches maxFetches - 1) 0 result "" 1
      Except.ok (some r.1, r.2)

/-- Guard condition of `processEnergyLogs` step 3 on a normalized timestamp:
`dateYear < 2020 || dateYear > currentYear + 1`. -/
def yearGuardFails (currentYear ts : Int) : Prop :=
  yearOfEpochMs ts < 2020 ∨ currentYear + 1 < yearOfEpochMs ts

instance (cy ts : Int) : Decidable (yearGuardFails cy ts) := by
  unfold yearGuardFails; infer_instance

/-- Instants at or before the epoch have UTC calendar year at most 2001
(in fact at most 1970; the coarse bound suffices for the guard analysis). -/
theorem yearOfEpochMs_le_of_nonpos {ms : Int} (h : ms ≤ 0) : yearOfEpochMs ms ≤ 2001 := by
  have hz : ms / msPerDay ≤ 0 := by
    have := Int.ediv_le_ediv (by decide : (0:Int) < msPerDay) h
    simpa using this
  unfold yearOfEpochMs civilFromDays epochDay
  simp only
  split <;> split <;> omega

/-- Instants whose UTC year reaches 2020 are strictly positive epoch-ms. -/
theorem pos_of_yearOfEpochMs_ge {ms : Int} (h : 2020 ≤ yearOfEpochMs ms) : 0 < ms := by
  by_contra hc
  push_neg at hc
  have := yearOfEpochMs_le_of_nonpos hc
  omega

/-- Normalization never lowers a nonnegative timestamp. -/
theorem le_normalizeTs {t : Int} (h : 0 ≤ t) : t ≤ normalizeTs t := by
  unfold normalizeTs; split <;> omega

/-- A positive normalized timestamp comes from a positive raw timestamp. -/
theorem pos_of_normalizeTs_pos {t : Int} (h : 0 < normalizeTs t) : 0 < t := by
  unfold normalizeTs at h; split at h <;> omega

/-- When the year guard passes, the normalized timestamp is positive. -/
theorem normalizeTs_pos_of_guardOk {cy t : Int}
    (h : ¬ yearGuardFails cy (normalizeTs t)) : 0 < normalizeTs t := by
  unfold yearGuardFails at h
  push_neg at h
  exact pos_of_yearOfEpochMs_ge h.1

/-- When the year guard passes, the normalized timestamp dominates the raw one. -/
theorem raw_le_normalizeTs_of_guardOk {cy t : Int}
    (h : ¬ yearGuardFails cy (normalizeTs t)) : t ≤ normalizeTs t :=
  le_normalizeTs (le_of_lt (pos_of_normalizeTs_pos (normalizeTs_pos_of_guardOk h)))

/-- Membership in `setAgg` comes from the written entry or the old list. -/
theorem mem_setAgg {aggs : List (String × DayAgg)} {k : String} {d : DayAgg}
    {kd : String × DayAgg} (h : kd ∈ setAgg aggs k d) : kd = (k, d) ∨ kd ∈ aggs := by
  induction aggs with
  | nil => simpa [setAgg] using h
  | cons hd tl ih =>
    simp only [setAgg] at h
    split at h
    · rcases List.mem_cons.1 h with h1 | h1
      · exact Or.inl h1
      · exact Or.inr (List.mem_cons_of_mem _ h1)
    · rcases List.mem_cons.1 h with h1 | h1
      · exact Or.inr (h1 ▸ List.mem_cons_self _ _)
      · rcases ih h1 with h2 | h2
        · exact Or.inl h2
        · exact Or.inr (List.mem_cons_of_mem _ h2)

/-- Looking up the key just written returns the written accumulator. -/
theorem findAgg_setAgg_self (aggs : List (String × DayAgg)) (k : String) (d : DayAgg) :
    findAgg (setAgg aggs k d) k = some d := by
  induction aggs with
  | nil => simp [setAgg, findAgg]
  | cons hd tl ih =>
    simp only [setAgg]
    split
    · simp [findAgg]
    · rename_i hne
      simp only [findAgg] at ih ⊢
      rw [List.find?_cons_of_neg]
      · exact ih
      · simpa using hne

/-- Writing one key leaves the lookup of any other key unchanged. -/
theorem findAgg_setAgg_ne {aggs : List (String × DayAgg)} {k k' : String} {d : DayAgg}
    (h : k' ≠ k) : findAgg (setAgg aggs k d) k' = findAgg aggs k' := by
  induction aggs with
  | nil =>
    simp only [setAgg, findAgg, List.find?]
    have : (k == k') = false := by simpa using (Ne.symm h)
    simp [this]
  | cons hd tl ih =>
    simp only [setAgg]
    split
    · rename_i heq
      have hk : hd.1 = k := by simpa using heq
      simp only [findAgg, List.find?]
      have h1 : (k == k') = false := by simpa using (Ne.symm h)
      have h2 : (hd.1 == k') = false := by simpa [hk] using (Ne.symm h)
      simp [h1, h2]
    · rename_i hne
      simp only [findAgg, List.find?] at ih ⊢
      cases hh : (hd.1 == k') with
      | true => simp [hh]
      | false => simpa [hh] using ih

/-- A successful lookup exhibits a member of the association list. -/
theorem findAgg_mem {aggs : List (String × DayAgg)} {k : String} {d : DayAgg}
    (h : findAgg aggs k = some d) : (k, d) ∈ aggs := by
  unfold findAgg at h
  cases hf : aggs.find? (fun kd => kd.1 == k) with
  | none => rw [hf] at h; simp at h
  | some kd =>
    rw [hf] at h
    have hp := List.find?_some hf
    have hm := List.mem_of_find?_eq_some hf
    obtain ⟨a, b⟩ := kd
    have ha : a = k := by simpa using hp
    have hb : b = d := by simpa using h
    rw [ha, hb] at hm
    exact hm

/-- Keys of `setAgg` are the written key or old keys. -/
theorem mem_keys_setAgg {aggs : List (String × DayAgg)} {k k' : String} {d : DayAgg}
    (h : k' ∈ (setAgg aggs k d).map Prod.fst) : k' = k ∨ k' ∈ aggs.map Prod.fst := by
  rcases List.mem_map.1 h with ⟨kd, hkd, hfst⟩
  rcases mem_setAgg hkd with h1 | h1
  · left
    rw [h1] at hfst
    exact hfst.symm
  · right
    exact List.mem_map.2 ⟨kd, h1, hfst⟩

/-- `setAgg` preserves distinctness of the keys. -/
theorem nodupKeys_setAgg {aggs : List (String × DayAgg)} {k : String} {d : DayAgg}
    (h : (aggs.map Prod.fst).Nodup) : ((setAgg aggs k d).map Prod.fst).Nodup := by
  induction aggs with
  | nil => simp [setAgg]
  | cons hd tl ih =>
    simp only [List.map_cons, List.nodup_cons] at h
    simp only [setAgg]
    split
    · rename_i heq
      have hk : hd.1 = k := by simpa using heq
      simp only [List.map_cons, List.nodup_cons]
      exact ⟨hk ▸ h.1, h.2⟩
    · rename_i hne
      simp only [List.map_cons, List.nodup_cons]
      refine ⟨?_, ih h.2⟩
      intro hmem
      rcases mem_keys_setAgg hmem with h1 | h1
      · exact hne (by simp [h1])
      · exact h.1 h1

/-- An entry skipped by the year guard leaves the aggregates untouched
(the `continue` branch of step 3). -/
theorem processLog_of_guardFail {cy : Int} {aggs : List (String × DayAgg)}
    {log : TuyaLogEntry} (h : yearGuardFails cy (normalizeTs log.event_time)) :
    processLog cy aggs log = aggs := by
  unfold yearGuardFails at h
  simp only [processLog]
  rw [if_pos h]

/-- Processing one entry whose raw timestamp exceeds `w` keeps every
accumulator's per-day maximum strictly above `w`. -/
theorem processLog_lpBound {cy w : Int} {aggs : List (String × DayAgg)} {log : TuyaLogEntry}
    (hb : ∀ kd ∈ aggs, w < (kd : String × DayAgg).2.lastProcessedTimestamp)
    (hw : w < log.event_time) :
    ∀ kd ∈ processLog cy aggs log, w < kd.2.lastProcessedTimestamp := by
  intro kd hkd
  by_cases hg : yearGuardFails cy (normalizeTs log.event_time)
  · rw [processLog_of_guardFail hg] at hkd
    exact hb kd hkd
  · have hts : w < normalizeTs log.event_time :=
      lt_of_lt_of_le hw (raw_le_normalizeTs_of_guardOk hg)
    have hpos := normalizeTs_pos_of_guardOk hg
    have hg' := hg
    unfold yearGuardFails at hg'
    simp only [processLog] at hkd
    rw [if_neg hg'] at hkd
    rcases mem_setAgg hkd with h1 | h1
    · subst h1
      cases hfind : findAgg aggs (skopjeDateKey (normalizeTs log.event_time)) with
      | none =>
        simp only [hfind, Option.getD_none]
        split_ifs <;> simp <;> omega
      | some d0 =>
        have hd0 : w < d0.lastProcessedTimestamp := hb _ (findAgg_mem hfind)
        simp only [hfind, Option.getD_some]
        split_ifs <;> simp <;> omega
    · exact hb kd h1

/-- Processing an entry never lowers any key's per-day maximum timestamp. -/
theorem processLog_findAgg_mono {cy : Int} {aggs : List (String × DayAgg)}
    {log : TuyaLogEntry} {K : String} {d : DayAgg}
    (h : findAgg aggs K = some d) :
    ∃ e, findAgg (processLog cy aggs log) K = some e ∧
      d.lastProcessedTimestamp ≤ e.lastProcessedTimestamp := by
  by_cases hg : yearGuardFails cy (normalizeTs log.event_time)
  · exact ⟨d, by rw [processLog_of_guardFail hg]; exact h, le_refl _⟩
  · have hg' := hg
    unfold yearGuardFails at hg'
    simp only [processLog]
    rw [if_neg hg']
    by_cases hk : skopjeDateKey (normalizeTs log.event_time) = K
    · subst hk
      rw [h]
      refine ⟨_, findAgg_setAgg_self _ _ _, ?_⟩
      simp only [Option.getD_some]
      split_ifs <;> simp <;> omega
    · rw [findAgg_setAgg_ne (Ne.symm hk)]
      exact ⟨d, h, le_refl _⟩

/-- Processing an entry that passes the year guard leaves, at that entry's
date key, an accumulator whose per-day maximum dominates the entry's
normalized timestamp. -/
theorem processLog_findAgg_self {cy : Int} {aggs : List (String × DayAgg)}
    {log : TuyaLogEntry} (hg : ¬ yearGuardFails cy (normalizeTs log.event_time)) :
    ∃ e, findAgg (processLog cy aggs log) (skopjeDateKey (normalizeTs log.event_time)) = some e ∧
      normalizeTs log.event_time ≤ e.lastProcessedTimestamp := by
  have hg' := hg
  unfold yearGuardFails at hg'
  simp only [processLog]
  rw [if_neg hg']
  refine ⟨_, findAgg_setAgg_self _ _ _, ?_⟩
  cases hfind : findAgg aggs (skopjeDateKey (normalizeTs log.event_time)) with
  | none =>
    simp only [hfind, Option.getD_none]
    split_ifs <;> simp <;> omega
  | some d0 =>
    simp only [hfind, Option.getD_some]
    split_ifs <;> simp <;> omega

/-- The whole step-3 fold never lowers any key's per-day maximum timestamp. -/
theorem foldl_processLog_findAgg_mono {cy : Int} {K : String} :
    ∀ (logs : List TuyaLogEntry) (aggs : List (String × DayAgg)) (d : DayAgg),
    findAgg aggs K = some d →
    ∃ e, findAgg (logs.foldl (processLog cy) aggs) K = some e ∧
      d.lastProcessedTimestamp ≤ e.lastProcessedTimestamp := by
  intro logs
  induction logs with
  | nil => exact fun aggs d h => ⟨d, h, le_refl _⟩
  | cons hd tl ih =>
    intro aggs d h
    rcases @processLog_findAgg_mono cy aggs hd K d h with ⟨e1, he1, hle1⟩
    rcases ih _ _ he1 with ⟨e2, he2, hle2⟩
    exact ⟨e2, he2, le_trans hle1 hle2⟩

/-- Every guard-passing entry of the batch ends up dominated by the final
accumulator at its own date key. -/
theorem aggregate_findAgg_of_mem {cy : Int} {logs : List TuyaLogEntry} {e : TuyaLogEntry}
    (he : e ∈ logs) (hg : ¬ yearGuardFails cy (normalizeTs e.event_time)) :
    ∃ d, findAgg (aggregate cy logs) (skopjeDateKey (normalizeTs e.event_time)) = some d ∧
      normalizeTs e.event_time ≤ d.lastProcessedTimestamp := by
  unfold aggregate
  suffices h : ∀ (l : List TuyaLogEntry) (aggs : List (String × DayAgg)), e ∈ l →
      ∃ d, findAgg (l.foldl (processLog cy) aggs) (skopjeDateKey (normalizeTs e.event_time)) = some d ∧
        normalizeTs e.event_time ≤ d.lastProcessedTimestamp by
    exact h logs [] he
  intro l
  induction l with
  | nil => intro aggs h; cases h
  | cons hd tl ih =>
    intro aggs hmem
    rcases List.mem_cons.1 hmem with h1 | h1
    · subst h1
      rcases @processLog_findAgg_self cy aggs _ hg with ⟨d1, hd1, hle1⟩
      rcases foldl_processLog_findAgg_mono tl _ _ hd1 with ⟨d2, hd2, hle2⟩
      exact ⟨d2, by simpa using hd2, le_trans hle1 hle2⟩
    · exact ih _ h1

/-- The fold over a batch of entries that all fail the year guard is a no-op. -/
theorem foldl_processLog_guardFail {cy : Int} :
    ∀ (logs : List TuyaLogEntry) (aggs : List (String × DayAgg)),
    (∀ e ∈ logs, yearGuardFails cy (normalizeTs (e : TuyaLogEntry).event_time)) →
    logs.foldl (processLog cy) aggs = aggs := by
  intro logs
  induction logs with
  | nil => intro aggs _; rfl
  | cons hd tl ih =>
    intro aggs h
    simp only [List.foldl_cons]
    rw [processLog_of_guardFail (h hd (by simp))]
    exact ih _ (fun e he => h e (by simp [he]))

/-- A batch whose entries all fail the year guard aggregates to nothing. -/
theorem aggregate_eq_nil {cy : Int} {logs : List TuyaLogEntry}
    (h : ∀ e ∈ logs, yearGuardFails cy (normalizeTs (e : TuyaLogEntry).event_time)) :
    aggregate cy logs = [] :=
  foldl_processLog_guardFail logs [] h

/-- The step-3 fold keeps every accumulator's per-day maximum above any
bound below all the raw timestamps of the batch. -/
theorem aggregate_lpBound {cy w : Int} {logs : List TuyaLogEntry}
    (hl : ∀ l ∈ logs, w < (l : TuyaLogEntry).event_time) :
    ∀ kd ∈ aggregate cy logs, w < (kd : String × DayAgg).2.lastProcessedTimestamp := by
  unfold aggregate
  suffices h : ∀ (l : List TuyaLogEntry) (aggs : List (String × DayAgg)),
      (∀ x ∈ l, w < (x : TuyaLogEntry).event_time) →
      (∀ kd ∈ aggs, w < (kd : String × DayAgg).2.lastProcessedTimestamp) →
      ∀ kd ∈ l.foldl (processLog cy) aggs, w < (kd : String × DayAgg).2.lastProcessedTimestamp by
    exact h logs [] hl (by intro kd hkd; cases hkd)
  intro l
  induction l with
  | nil => intro aggs _ hb; exact hb
  | cons hd tl ih =>
    intro aggs hw hb
    simp only [List.foldl_cons]
    exact ih _ (fun x hx => hw x (by simp [hx]))
      (processLog_lpBound hb (hw hd (by simp)))

/-- Aggregation produces distinct date keys. -/
theorem aggregate_nodupKeys (cy : Int) (logs : List TuyaLogEntry) :
    ((aggregate cy logs).map Prod.fst).Nodup := by
  unfold aggregate
  suffices h : ∀ (l : List TuyaLogEntry) (aggs : List (String × DayAgg)),
      (aggs.map Prod.fst).Nodup →
      ((l.foldl (processLog cy) aggs).map Prod.fst).Nodup by
    exact h logs [] (by simp)
  intro l
  induction l with
  | nil => exact fun aggs h => h
  | cons hd tl ih =>
    intro aggs h
    simp only [List.foldl_cons]
    refine ih _ ?_
    by_cases hg : yearGuardFails cy (normalizeTs hd.event_time)
    · rw [processLog_of_guardFail hg]; exact h
    · have hg' := hg
      unfold yearGuardFails at hg'
      simp only [processLog]
      rw [if_neg hg']
      exact nodupKeys_setAgg h

/-- Removing an entry that fails the year guard from anywhere in the batch
does not change the aggregation result. -/
theorem aggregate_append_guardFail {cy : Int} {e : TuyaLogEntry}
    (xs ys : List TuyaLogEntry)
    (h : yearGuardFails cy (normalizeTs e.event_time)) :
    aggregate cy (xs ++ e :: ys) = aggregate cy (xs ++ ys) := by
  unfold aggregate
  rw [List.foldl_append, List.foldl_append, List.foldl_cons,
    processLog_of_guardFail h]

/-- SQL MAX dominates every matching row. -/
theorem maxWatermark_ge {st : List BucketRow} {dev : String} {r : BucketRow}
    (hr : r ∈ st) (hdev : r.deviceId = dev) :
    ∃ w, maxWatermark st dev = some w ∧ r.lastProcessedTimestamp ≤ w := by
  induction st with
  | nil => cases hr
  | cons hd tl ih =>
    simp only [maxWatermark]
    rcases List.mem_cons.1 hr with h1 | h1
    · subst h1
      rw [if_pos (by simpa using hdev)]
      cases htl : maxWatermark tl dev with
      | none => exact ⟨_, rfl, le_refl _⟩
      | some w => exact ⟨_, rfl, le_max_left _ _⟩
    · rcases ih h1 with ⟨w, hw, hle⟩
      by_cases hh : hd.deviceId = dev
      · rw [if_pos (by simpa using hh), hw]
        exact ⟨_, rfl, le_trans hle (le_max_right _ _)⟩
      · rw [if_neg (by simpa using hh)]
        exact ⟨w, hw, hle⟩

/-- Convenience form of `maxWatermark_ge` through the `getD 0` read. -/
theorem le_maxWatermark_getD {st : List BucketRow} {dev : String} {r : BucketRow}
    (hr : r ∈ st) (hdev : r.deviceId = dev) :
    r.lastProcessedTimestamp ≤ (maxWatermark st dev).getD 0 := by
  rcases maxWatermark_ge hr hdev with ⟨w, hw, hle⟩
  rw [hw]
  exact hle

/-- A found bucket row is a member matching the requested key and device. -/
theorem getBucket_mem {st : List BucketRow} {k dev : String} {r : BucketRow}
    (h : getBucket st k dev = some r) :
    r ∈ st ∧ r.date = k ∧ r.deviceId = dev := by
  have hp := List.find?_some h
  have hm := List.mem_of_find?_eq_some h
  simp only [bucketMatches, Bool.and_eq_true, beq_iff_eq] at hp
  exact ⟨hm, hp.1, hp.2⟩

/-- The match predicate is insensitive to the update of the tracked fields. -/
theorem bucketMatches_applyUpdate (k dev : String) (d : DayAgg) (r : BucketRow) :
    bucketMatches k dev (applyUpdate d r) = bucketMatches k dev r := by
  simp [bucketMatches, applyUpdate]

/-- Updating the found row makes the lookup return the updated row. -/
theorem updateFirst_getBucket {st : List BucketRow} {k dev : String} {d : DayAgg}
    {ex : BucketRow} (h : getBucket st k dev = some ex) :
    getBucket (updateFirst k dev d st) k dev = some (applyUpdate d ex) := by
  induction st with
  | nil => simp [getBucket] at h
  | cons hd tl ih =>
    by_cases hm : bucketMatches k dev hd
    · unfold getBucket at h
      rw [List.find?_cons_of_pos _ hm] at h
      cases h
      unfold updateFirst
      rw [if_pos hm]
      unfold getBucket
      rw [List.find?_cons_of_pos]
      rw [bucketMatches_applyUpdate]
      exact hm
    · unfold getBucket at h
      rw [List.find?_cons_of_neg _ hm] at h
      unfold updateFirst
      rw [if_neg hm]
      unfold getBucket
      rw [List.find?_cons_of_neg _ hm]
      exact ih h

/-- The upsert leaves a row carrying the written per-day maximum for the
written `(date, deviceId)` key. -/
theorem upsertBucket_mem_self (dev k : String) (d : DayAgg) (st : List BucketRow) :
    ∃ r, r ∈ upsertBucket dev k d st ∧ r.date = k ∧ r.deviceId = dev ∧
      r.lastProcessedTimestamp = d.lastProcessedTimestamp := by
  unfold upsertBucket
  cases h : getBucket st k dev with
  | some ex =>
    have h2 := updateFirst_getBucket (d := d) h
    have hmem := List.mem_of_find?_eq_some h2
    have hmatch := getBucket_mem h
    exact ⟨applyUpdate d ex, hmem, by simp [applyUpdate, hmatch.2.1],
      by simp [applyUpdate, hmatch.2.2], by simp [applyUpdate]⟩
  | none =>
    exact ⟨insertRow k dev d, by simp, rfl, rfl, rfl⟩

/-- Rows whose date differs from the updated key survive `updateFirst`. -/
theorem updateFirst_preserve {k dev : String} {d : DayAgg} :
    ∀ {st : List BucketRow} {r : BucketRow},
    r ∈ st → r.date ≠ k → r ∈ updateFirst k dev d st := by
  intro st
  induction st with
  | nil => intro r hr _; cases hr
  | cons hd tl ih =>
    intro r hr hne
    unfold updateFirst
    by_cases hm : bucketMatches k dev hd
    · rw [if_pos hm]
      rcases List.mem_cons.1 hr with h1 | h1
      · exfalso
        subst h1
        simp only [bucketMatches, Bool.and_eq_true, beq_iff_eq] at hm
        exact hne hm.1
      · exact List.mem_cons_of_mem _ h1
    · rw [if_neg hm]
      rcases List.mem_cons.1 hr with h1 | h1
      · exact h1 ▸ List.mem_cons_self _ _
      · exact List.mem_cons_of_mem _ (ih h1 hne)

/-- Rows whose date differs from the upserted key survive the upsert. -/
theorem upsertBucket_preserve {dev k : String} {d : DayAgg} {st : List BucketRow}
    {r : BucketRow} (hr : r ∈ st) (hne : r.date ≠ k) :
    r ∈ upsertBucket dev k d st := by
  unfold upsertBucket
  cases h : getBucket st k dev with
  | none => exact List.mem_append_left _ hr
  | some ex => exact updateFirst_preserve hr hne

/-- Rows whose date is hit by none of the upserted keys survive `persist`. -/
theorem persist_preserve {dev : String} :
    ∀ (entries : List (String × DayAgg)) (st : List BucketRow) (r : BucketRow),
    r ∈ st → (∀ kd ∈ entries, r.date ≠ (kd : String × DayAgg).1) →
    r ∈ persist dev st entries := by
  intro entries
  induction entries with
  | nil => exact fun st r hr _ => hr
  | cons hd tl ih =>
    intro st r hr hne
    simp only [persist, List.foldl_cons]
    exact ih _ _ (upsertBucket_preserve hr (hne hd (by simp)))
      (fun kd hkd => hne kd (by simp [hkd]))

/-- With distinct keys, every aggregate written by `persist` is visible in
the final table as a row of the right device carrying its per-day maximum. -/
theorem persist_mem {dev : String} :
    ∀ (entries : List (String × DayAgg)) (st : List BucketRow),
    ((entries.map Prod.fst).Nodup) →
    ∀ kd ∈ entries, ∃ r, r ∈ persist dev st entries ∧ r.deviceId = dev ∧
      r.lastProcessedTimestamp = (kd : String × DayAgg).2.lastProcessedTimestamp := by
  intro entries
  induction entries with
  | nil => intro st _ kd hkd; cases hkd
  | cons hd tl ih =>
    intro st hnd kd hkd
    simp only [List.map_cons, List.nodup_cons] at hnd
    rcases List.mem_cons.1 hkd with h1 | h1
    · subst h1
      rcases upsertBucket_mem_self dev kd.1 kd.2 st with ⟨r, hr, hrd, hrdev, hrlp⟩
      refine ⟨r, ?_, hrdev, hrlp⟩
      simp only [persist, List.foldl_cons]
      refine persist_preserve tl _ r hr ?_
      intro kd2 hkd2
      rw [hrd]
      intro hcontra
      exact hnd.1 (List.mem_map.2 ⟨kd2, hkd2, hcontra.symm⟩)
    · simp only [persist, List.foldl_cons]
      exact ih _ hnd.2 kd h1

/-- The device watermark after `persist` dominates every written per-day
maximum (distinct keys). -/
theorem persist_watermark_ge {dev : String} {entries : List (String × DayAgg)}
    {st : List BucketRow} (hnd : (entries.map Prod.fst).Nodup)
    {kd : String × DayAgg} (hkd : kd ∈ entries) :
    kd.2.lastProcessedTimestamp ≤ (maxWatermark (persist dev st entries) dev).getD 0 := by
  rcases persist_mem entries st hnd kd hkd with ⟨r, hr, hdev, hlp⟩
  rw [← hlp]
  exact le_maxWatermark_getD hr hdev

/-- Updating some other date key leaves a lookup unchanged. -/
theorem updateFirst_getBucket_ne {k k2 dev : String} {d : DayAgg}
    (hne : k ≠ k2) :
    ∀ (st : List BucketRow),
    getBucket (updateFirst k2 dev d st) k dev = getBucket st k dev := by
  intro st
  induction st with
  | nil => rfl
  | cons hd tl ih =>
    unfold updateFirst
    by_cases hm : bucketMatches k2 dev hd
    · rw [if_pos hm]
      have hdate : hd.date = k2 := by
        simp only [bucketMatches, Bool.and_eq_true, beq_iff_eq] at hm
        exact hm.1
      have h1 : ¬ bucketMatches k dev hd = true := by
        simp [bucketMatches, hdate]
        intro hcontra
        exact absurd hcontra.symm hne
      have h2 : ¬ bucketMatches k dev (applyUpdate d hd) = true := by
        rw [bucketMatches_applyUpdate]
        exact h1
      unfold getBucket
      rw [List.find?_cons_of_neg _ h2, List.find?_cons_of_neg _ h1]
    · rw [if_neg hm]
      unfold getBucket
      by_cases h1 : bucketMatches k dev hd
      · rw [List.find?_cons_of_pos _ h1, List.find?_cons_of_pos _ h1]
      · rw [List.find?_cons_of_neg _ h1, List.find?_cons_of_neg _ h1]
        exact ih

/-- Upserting some other date key leaves a lookup unchanged. -/
theorem getBucket_upsertBucket_ne {dev k k2 : String} {d : DayAgg}
    {st : List BucketRow} (hne : k ≠ k2) :
    getBucket (upsertBucket dev k2 d st) k dev = getBucket st k dev := by
  unfold upsertBucket
  cases hg : getBucket st k2 dev with
  | some ex => exact updateFirst_getBucket_ne hne st
  | none =>
    unfold getBucket
    rw [List.find?_append]
    have : List.find? (bucketMatches k dev) [insertRow k2 dev d] = none := by
      simp [bucketMatches, insertRow]
      intro hcontra
      exact absurd hcontra.symm hne
    rw [this]
    cases st.find? (bucketMatches k dev) <;> rfl

/-- Upserting the looked-up key on an existing row yields the updated row. -/
theorem getBucket_upsertBucket_self {dev k : String} {d : DayAgg}
    {st : List BucketRow} {ex : BucketRow} (h : getBucket st k dev = some ex) :
    getBucket (upsertBucket dev k d st) k dev = some (applyUpdate d ex) := by
  unfold upsertBucket
  rw [h]
  exact updateFirst_getBucket h

/-- Through a run of upserts whose per-day maxima all dominate `v`, a
bucket row whose timestamp dominates `v` keeps doing so. -/
theorem persist_getBucket_mono {dev k : String} {v : Int} :
    ∀ (entries : List (String × DayAgg)) (st : List BucketRow),
    (∃ r, getBucket st k dev = some r ∧ v ≤ r.lastProcessedTimestamp) →
    (∀ kd ∈ entries, v ≤ (kd : String × DayAgg).2.lastProcessedTimestamp) →
    ∃ r, getBucket (persist dev st entries) k dev = some r ∧
      v ≤ r.lastProcessedTimestamp := by
  intro entries
  induction entries with
  | nil => exact fun st h _ => h
  | cons hd tl ih =>
    intro st h hbound
    simp only [persist, List.foldl_cons]
    rcases h with ⟨r, hr, hv⟩
    by_cases hk : k = hd.1
    · refine ih _ ⟨applyUpdate hd.2 r, ?_, ?_⟩ (fun kd hkd => hbound kd (by simp [hkd]))
      · subst hk
        exact getBucket_upsertBucket_self hr
      · simp only [applyUpdate]
        exact hbound hd (by simp)
    · refine ih _ ⟨r, ?_, hv⟩ (fun kd hkd => hbound kd (by simp [hkd]))
      rw [getBucket_upsertBucket_ne hk]
      exact hr

/-- Insertion produces a permutation of consing. -/
theorem insertSorted_perm (kd : String × DayAgg) :
    ∀ (l : List (String × DayAgg)), List.Perm (insertSorted kd l) (kd :: l) := by
  intro l
  induction l with
  | nil => rfl
  | cons kd2 rest ih =>
    unfold insertSorted
    split
    · rfl
    · exact (List.Perm.cons kd2 ih).trans (List.Perm.swap kd kd2 rest)

/-- The key sort permutes the aggregate entries. -/
theorem sortByKey_perm : ∀ (l : List (String × DayAgg)), List.Perm (sortByKey l) l := by
  intro l
  induction l with
  | nil => rfl
  | cons kd rest ih =>
    exact (insertSorted_perm kd (sortByKey rest)).trans (List.Perm.cons kd ih)

/-- Membership is invariant under the key sort. -/
theorem mem_sortByKey {kd : String × DayAgg} {l : List (String × DayAgg)} :
    kd ∈ sortByKey l ↔ kd ∈ l :=
  (sortByKey_perm l).mem_iff

/-- Distinctness of keys is invariant under the key sort. -/
theorem nodupKeys_sortByKey {l : List (String × DayAgg)}
    (h : (l.map Prod.fst).Nodup) : ((sortByKey l).map Prod.fst).Nodup :=
  (((sortByKey_perm l).map Prod.fst).symm).nodup h

/-- In a normal (non-forced) run, surviving logs are the `add_ele` entries
strictly newer (raw timestamp) than the stored watermark. -/
theorem survivingLogs_none_def (st : List BucketRow) (dev : String)
    (logs : List TuyaLogEntry) :
    survivingLogs st dev none logs =
      (addEleLogs logs).filter
        (fun l => lastProcessedTs st dev none < l.event_time) := by
  simp only [survivingLogs]
  rw [if_neg (by simp)]

/-- Membership characterization of the surviving logs of a normal run. -/
theorem mem_survivingLogs_none {st : List BucketRow} {dev : String}
    {logs : List TuyaLogEntry} {e : TuyaLogEntry} :
    e ∈ survivingLogs st dev none logs ↔
      e ∈ addEleLogs logs ∧ lastProcessedTs st dev none < e.event_time := by
  rw [survivingLogs_none_def]
  simp [List.mem_filter]

/-- Branch lemma: an empty surviving window returns the untouched state. -/
theorem processEnergyLogs_empty {cy : Int} {st : List BucketRow} {dev : String}
    {force : Option Int} {logs : List TuyaLogEntry}
    (h : (survivingLogs st dev force logs).length = 0) :
    processEnergyLogs cy st dev force logs = (st, "No new logs.") := by
  simp only [processEnergyLogs]
  rw [if_pos h]

/-- Branch lemma: a nonempty surviving window aggregates and persists. -/
theorem processEnergyLogs_nonempty {cy : Int} {st : List BucketRow} {dev : String}
    {force : Option Int} {logs : List TuyaLogEntry}
    (h : ¬ (survivingLogs st dev force logs).length = 0) :
    processEnergyLogs cy st dev force logs =
      (persist dev st (sortByKey (aggregate cy (survivingLogs st dev force logs))),
        "Scheduled task completed successfully.") := by
  simp only [processEnergyLogs]
  rw [if_neg h]

/-- The watermark read of a normal run is the stored maximum (0 if none). -/
theorem lastProcessedTs_none (st : List BucketRow) (dev : String) :
    lastProcessedTs st dev none = (maxWatermark st dev).getD 0 := rfl

/-- The sorted aggregate entries have distinct keys. -/
theorem sorted_nodupKeys (cy : Int) (nl : List TuyaLogEntry) :
    ((sortByKey (aggregate cy nl)).map Prod.fst).Nodup :=
  nodupKeys_sortByKey (aggregate_nodupKeys cy nl)

/-- Core dominance fact behind idempotence: after a normal run, every
`add_ele` entry of the same remote batch that passes the year guard has a
raw timestamp at most the new stored watermark. -/
theorem run1_watermark_dominates {cy : Int} {st : List BucketRow} {dev : String}
    {logs : List TuyaLogEntry}
    (h1 : ¬ (survivingLogs st dev none logs).length = 0)
    {e : TuyaLogEntry} (he : e ∈ addEleLogs logs)
    (hg : ¬ yearGuardFails cy (normalizeTs e.event_time)) :
    e.event_time ≤
      lastProcessedTs (processEnergyLogs cy st dev none logs).1 dev none := by
  rw [processEnergyLogs_nonempty h1]
  dsimp only
  have hfilter : ∀ x ∈ survivingLogs st dev none logs,
      lastProcessedTs st dev none < (x : TuyaLogEntry).event_time :=
    fun x hx => (mem_survivingLogs_none.1 hx).2
  have hnodup := sorted_nodupKeys cy (survivingLogs st dev none logs)
  rw [lastProcessedTs_none]
  by_cases hcase : e.event_time ≤ lastProcessedTs st dev none
  · -- stale entry: it is enough that the watermark does not drop
    by_cases hagg : aggregate cy (survivingLogs st dev none logs) = []
    · rw [hagg]
      simp only [sortByKey, persist, List.foldl_nil]
      rw [← lastProcessedTs_none]
      exact hcase
    · obtain ⟨kd0, hmem0⟩ := List.exists_mem_of_ne_nil _ hagg
      have hlt : lastProcessedTs st dev none < kd0.2.lastProcessedTimestamp :=
        aggregate_lpBound hfilter kd0 hmem0
      have hge := @persist_watermark_ge dev _ st hnodup _ (mem_sortByKey.2 hmem0)
      omega
  · push_neg at hcase
    have henl : e ∈ survivingLogs st dev none logs :=
      mem_survivingLogs_none.2 ⟨he, hcase⟩
    rcases aggregate_findAgg_of_mem henl hg with ⟨d, hfind, hlp⟩
    have hmem := findAgg_mem hfind
    have hge := @persist_watermark_ge dev _ st hnodup _ (mem_sortByKey.2 hmem)
    dsimp only at hge
    have hr := raw_le_normalizeTs_of_guardOk hg
    omega

/-- C1: running `processEnergyLogs` a second time, without a forced start,
against the same remote log batch leaves the whole stored table unchanged —
in particular every `(date, deviceId)` bucket's `lowTariffKwh` and
`highTariffKwh` totals are identical to their values after the first run,
because the watermark written by the first run filters out every entry that
could contribute energy again. -/
theorem c1_idempotence (cy : Int) (st : List BucketRow) (dev : String)
    (logs : List TuyaLogEntry) :
    (processEnergyLogs cy (processEnergyLogs cy st dev none logs).1 dev none logs).1 =
      (processEnergyLogs cy st dev none logs).1 := by
  by_cases h1 : (survivingLogs st dev none logs).length = 0
  · rw [processEnergyLogs_empty h1]
    dsimp only
    rw [processEnergyLogs_empty h1]
  · have hguard : ∀ e ∈ survivingLogs (processEnergyLogs cy st dev none logs).1 dev none logs,
        yearGuardFails cy (normalizeTs (e : TuyaLogEntry).event_time) := by
      intro e he
      by_contra hg
      rcases mem_survivingLogs_none.1 he with ⟨hadds, hlt⟩
      have hdom := run1_watermark_dominates h1 hadds hg
      omega
    by_cases h2 : (survivingLogs (processEnergyLogs cy st dev none logs).1 dev none logs).length = 0
    · rw [processEnergyLogs_empty h2]
    · rw [processEnergyLogs_nonempty h2]
      dsimp only
      rw [aggregate_eq_nil hguard]
      simp only [sortByKey, persist, List.foldl_nil]

/-- C2 counterexample: in the forced-reprocess mode (`forceStartTimestamp = 0`)
an already-stored bucket whose watermark is 2023-11-15 11:00:00 UTC
(1700046000000 ms) is overwritten with the lower per-day maximum
1700042400000 ms (10:00:00 UTC) of the reprocessed batch: the write
strictly decreases the bucket's `lastProcessedTimestamp`, refuting
monotonicity "in every mode of invocation". -/
theorem c2_counterexample :
    (getBucket [⟨"2023-11-15", "d", 0, 0, 1700046000000⟩] "2023-11-15" "d").map
        (fun r => r.lastProcessedTimestamp) = some 1700046000000 ∧
    (getBucket (processEnergyLogs 2023 [⟨"2023-11-15", "d", 0, 0, 1700046000000⟩] "d"
        (some 0) [⟨"add_ele", 1700042400000, 300⟩]).1 "2023-11-15" "d").map
        (fun r => r.lastProcessedTimestamp) = some 1700042400000 ∧
    (1700042400000 : Int) < 1700046000000 := by
  refine ⟨by decide, by decide, by decide⟩

/-- C2 (amended): for a fixed device and date, `lastProcessedTimestamp`
never decreases across writes performed by normal (non-forced) runs of
`processEnergyLogs`; under a forced invocation the update can lower it,
since the upsert replaces the stored value with the new per-day maximum. -/
theorem c2_monotonic_normal (cy : Int) (st : List BucketRow) (dev : String)
    (logs : List TuyaLogEntry) (k : String) (r : BucketRow)
    (h : getBucket st k dev = some r) :
    ∃ r2, getBucket (processEnergyLogs cy st dev none logs).1 k dev = some r2 ∧
      r.lastProcessedTimestamp ≤ r2.lastProcessedTimestamp := by
  by_cases h1 : (survivingLogs st dev none logs).length = 0
  · rw [processEnergyLogs_empty h1]
    exact ⟨r, h, le_refl _⟩
  · rw [processEnergyLogs_nonempty h1]
    dsimp only
    have hmem := getBucket_mem h
    have hw1 : r.lastProcessedTimestamp ≤ lastProcessedTs st dev none := by
      rw [lastProcessedTs_none]
      exact le_maxWatermark_getD hmem.1 hmem.2.2
    have hfilter : ∀ x ∈ survivingLogs st dev none logs,
        lastProcessedTs st dev none < (x : TuyaLogEntry).event_time :=
      fun x hx => (mem_survivingLogs_none.1 hx).2
    refine persist_getBucket_mono _ _ ⟨r, h, le_refl _⟩ ?_
    intro kd hkd
    have hlt := aggregate_lpBound hfilter kd (mem_sortByKey.1 hkd)
    omega

/-- Witness for `c2_monotonic_normal` at a concrete bucket and empty batch. -/
theorem c2_witness :
    ∃ r2, getBucket (processEnergyLogs 2023 [⟨"2023-11-15", "d", 0, 0, 5⟩] "d" none []).1
        "2023-11-15" "d" = some r2 ∧
      (5 : Int) ≤ r2.lastProcessedTimestamp :=
  c2_monotonic_normal 2023 [⟨"2023-11-15", "d", 0, 0, 5⟩] "d" [] "2023-11-15"
    ⟨"2023-11-15", "d", 0, 0, 5⟩ rfl

/-- C3 counterexample: with the explicit forced value 0 the engine does
read the stored watermark (`!forceStartTimestamp` is true for 0), and the
fetch window start it passes on is derived from that watermark
(1700000000000 ms → second 1700000000), not from the supplied 0. -/
theorem c3_counterexample :
    readsStoredWatermark (some 0) = true ∧
    lastProcessedTs [⟨"2023-11-15", "d", 0, 0, 1700000000000⟩] "d" (some 0) =
      1700000000000 ∧
    fetchWindowStart [⟨"2023-11-15", "d", 0, 0, 1700000000000⟩] "d" (some 0) =
      1700000000 ∧
    (1700000000 : Int) ≠ 0 := by
  refine ⟨by decide, by decide, by decide, by decide⟩

/-- C3 (amended): a nonzero forced start timestamp is used as the window
start and suppresses the watermark read; the forced value 0 and an absent
argument both read the stored watermark (defaulting to 0, hence to the
"7 days ago" fetch window start `-7`, when no row exists) — forced 0 only
bypasses the stale-filter, not the watermark read. -/
theorem c3_forced_window_start (st : List BucketRow) (dev : String) (f : Int)
    (hf : f ≠ 0) :
    readsStoredWatermark (some f) = false ∧
    lastProcessedTs st dev (some f) = f ∧
    readsStoredWatermark none = true ∧
    readsStoredWatermark (some 0) = true ∧
    lastProcessedTs st dev (some 0) = (maxWatermark st dev).getD 0 ∧
    lastProcessedTs st dev none = (maxWatermark st dev).getD 0 ∧
    (maxWatermark st dev = none → fetchWindowStart st dev none = -7) := by
  refine ⟨?_, ?_, rfl, ?_, ?_, rfl, ?_⟩
  · simp [readsStoredWatermark, hf]
  · simp [lastProcessedTs, hf]
  · simp [readsStoredWatermark]
  · simp [lastProcessedTs]
  · intro h
    simp [fetchWindowStart, lastProcessedTs, h]

/-- Witness for `c3_forced_window_start` at `f = 5` on the empty table. -/
theorem c3_witness :
    readsStoredWatermark (some 5) = false ∧
    lastProcessedTs [] "d" (some 5) = 5 ∧
    readsStoredWatermark none = true ∧
    readsStoredWatermark (some 0) = true ∧
    lastProcessedTs [] "d" (some 0) = (maxWatermark [] "d").getD 0 ∧
    lastProcessedTs [] "d" none = (maxWatermark [] "d").getD 0 ∧
    (maxWatermark [] "d" = none → fetchWindowStart [] "d" none = -7) :=
  c3_forced_window_start [] "d" 5 (by decide)

/-- C4: the stale filter compares the raw `event_time` against the stored
millisecond watermark before the seconds-to-milliseconds normalization.
An `add_ele` entry reported in seconds (1700000001) whose corrected
millisecond timestamp 1700000001000 strictly exceeds the stored watermark
1700000000500 is nevertheless discarded — the run reports "no new logs"
and writes nothing, contradicting the specified corrected-timestamp
filter. -/
theorem c4_stale_filter_on_raw_timestamp :
    normalizeTs 1700000001 = 1700000001000 ∧
    (1700000000500 : Int) < 1700000001000 ∧
    ¬ yearGuardFails 2023 (normalizeTs 1700000001) ∧
    survivingLogs [⟨"2023-11-15", "d", 0, 0, 1700000000500⟩] "d" none
      [⟨"add_ele", 1700000001, 300⟩] = [] ∧
    (processEnergyLogs 2023 [⟨"2023-11-15", "d", 0, 0, 1700000000500⟩] "d" none
      [⟨"add_ele", 1700000001, 300⟩]).1 =
      [⟨"2023-11-15", "d", 0, 0, 1700000000500⟩] ∧
    (processEnergyLogs 2023 [⟨"2023-11-15", "d", 0, 0, 1700000000500⟩] "d" none
      [⟨"add_ele", 1700000001, 300⟩]).2 = "No new logs." := by
  refine ⟨by decide, by decide, by decide, by decide, rfl, by decide⟩

/-- C5 counterexample: a follow-up page whose response has `success = false`
(and no `result` body) does not raise — the pagination loop just stops and
the entries already fetched on the first page are returned to the caller
(two requests were issued, partial logs delivered). -/
theorem c5_counterexample :
    getDeviceLogs ⟨true, some ⟨[⟨"add_ele", 5, 1⟩], some true, "k1"⟩⟩
      (fun _ => ⟨false, none⟩) 0 50 =
      Except.ok (some ⟨[⟨"add_ele", 5, 1⟩], some true, "k1"⟩, 2) := by
  rfl

/-- C5 (amended): only the first page's `success` flag is checked — a
non-success first page makes the whole fetch raise with nothing returned;
non-success follow-up pages never raise (a missing `result` body merely
ends pagination, returning the entries fetched so far). -/
theorem c5_first_page_failure (first : TuyaApiResponse)
    (pages : Nat → TuyaApiResponse) (size maxFetches : Nat)
    (h : first.success = false) :
    getDeviceLogs first pages size maxFetches =
      Except.error "Failed to get device logs" := by
  simp only [getDeviceLogs, h]
  rfl

/-- Witness for `c5_first_page_failure` on a concrete failed first page. -/
theorem c5_witness :
    getDeviceLogs ⟨false, none⟩ (fun _ => ⟨true, none⟩) 0 50 =
      Except.error "Failed to get device logs" :=
  c5_first_page_failure ⟨false, none⟩ (fun _ => ⟨true, none⟩) 0 50 rfl

/-- C6: the tariff classifier's reference vectors, as absolute instants of
November 2023 (CET, UTC+1) evaluated on the Europe/Skopje wall clock:
Saturday 23:00, Sunday 12:00, Monday 06:59, Wednesday 14:00 and
Wednesday 23:00 are Low; Monday 07:01 and Wednesday 10:00 are High. -/
theorem c6_tariff_vectors :
    isLowTariffAt 1699740000000 = true ∧
    isLowTariffAt 1699786800000 = true ∧
    isLowTariffAt 1699855140000 = true ∧
    isLowTariffAt 1699855260000 = false ∧
    isLowTariffAt 1700053200000 = true ∧
    isLowTariffAt 1700085600000 = true ∧
    isLowTariffAt 1700038800000 = false ∧
    skopjeWeekday 1699740000000 = 6 ∧ skopjeHour 1699740000000 = 23 ∧
    skopjeWeekday 1699786800000 = 0 ∧ skopjeHour 1699786800000 = 12 ∧
    skopjeWeekday 1699855140000 = 1 ∧ skopjeHour 1699855140000 = 6 ∧
    skopjeWeekday 1699855260000 = 1 ∧ skopjeHour 1699855260000 = 7 ∧
    skopjeWeekday 1700053200000 = 3 ∧ skopjeHour 1700053200000 = 14 ∧
    skopjeWeekday 1700085600000 = 3 ∧ skopjeHour 1700085600000 = 23 ∧
    skopjeWeekday 1700038800000 = 3 ∧ skopjeHour 1700038800000 = 10 := by
  decide

/-- Inserting one entry into the remote batch either leaves the surviving
logs unchanged (the entry is filtered out) or inserts it in place. -/
theorem survivingLogs_insert (st : List BucketRow) (dev : String)
    (force : Option Int) (l1 l2 : List TuyaLogEntry) (e : TuyaLogEntry) :
    survivingLogs st dev force (l1 ++ e :: l2) =
      survivingLogs st dev force (l1 ++ l2) ∨
    ∃ xs ys, survivingLogs st dev force (l1 ++ e :: l2) = xs ++ e :: ys ∧
      survivingLogs st dev force (l1 ++ l2) = xs ++ ys := by
  simp only [survivingLogs, addEleLogs]
  by_cases hc : (e.code == "add_ele") = true
  · by_cases hf : force = some 0
    · rw [if_pos hf, if_pos hf]
      right
      refine ⟨l1.filter (fun l => l.code == "add_ele"),
        l2.filter (fun l => l.code == "add_ele"), ?_, ?_⟩
      · simp [List.filter_append, List.filter_cons, hc]
      · simp [List.filter_append]
    · rw [if_neg hf, if_neg hf]
      by_cases ht : (decide (lastProcessedTs st dev force < e.event_time)) = true
      · right
        refine ⟨(l1.filter (fun l => l.code == "add_ele")).filter
            (fun l => lastProcessedTs st dev force < l.event_time),
          (l2.filter (fun l => l.code == "add_ele")).filter
            (fun l => lastProcessedTs st dev force < l.event_time), ?_, ?_⟩
        · simp [List.filter_append, List.filter_cons, hc, ht]
        · simp [List.filter_append]
      · left
        have ht2 : (decide (lastProcessedTs st dev force < e.event_time)) = false := by
          simpa using ht
        simp [List.filter_append, List.filter_cons, hc, ht2]
  · left
    have hc2 : (e.code == "add_ele") = false := by simpa using hc
    by_cases hf : force = some 0
    · rw [if_pos hf, if_pos hf]
      simp [List.filter_append, List.filter_cons, hc2]
    · rw [if_neg hf, if_neg hf]
      simp [List.filter_append, List.filter_cons, hc2]

/-- C7: an entry whose normalized timestamp has a UTC year outside
`[2020, currentYear + 1]` is skipped without failing the run — removing it
from the remote batch leaves the resulting stored state identical, so it
contributes nothing to any bucket's totals and changes no bucket's
`lastProcessedTimestamp`. -/
theorem c7_corrupt_timestamp_guard (cy : Int) (st : List BucketRow) (dev : String)
    (force : Option Int) (l1 l2 : List TuyaLogEntry) (e : TuyaLogEntry)
    (h : yearGuardFails cy (normalizeTs e.event_time)) :
    (processEnergyLogs cy st dev force (l1 ++ e :: l2)).1 =
      (processEnergyLogs cy st dev force (l1 ++ l2)).1 := by
  rcases survivingLogs_insert st dev force l1 l2 e with hsame | ⟨xs, ys, hA, hB⟩
  · simp only [processEnergyLogs]
    rw [hsame]
  · have hagg : aggregate cy (xs ++ e :: ys) = aggregate cy (xs ++ ys) :=
      aggregate_append_guardFail xs ys h
    simp only [processEnergyLogs]
    rw [hA, hB, hagg]
    have hne : ¬ (xs ++ e :: ys).length = 0 := by simp
    rw [if_neg hne]
    by_cases hlen : (xs ++ ys).length = 0
    · rw [if_pos hlen]
      have hxs : xs = [] := by
        cases xs with
        | nil => rfl
        | cons a as => simp at hlen
      have hys : ys = [] := by
        cases ys with
        | nil => rfl
        | cons a as => simp at hlen
      subst hxs
      subst hys
      simp [aggregate, sortByKey, persist]
    · rw [if_neg hlen]

/-- Witness for `c7_corrupt_timestamp_guard`: a 1970 entry (event time 1,
normalized to 1000 ms) changes nothing. -/
theorem c7_witness :
    (processEnergyLogs 2023 [] "d" none ([] ++ (⟨"add_ele", 1, 1⟩ : TuyaLogEntry) :: [])).1 =
      (processEnergyLogs 2023 [] "d" none ([] ++ [])).1 :=
  c7_corrupt_timestamp_guard 2023 [] "d" none [] [] ⟨"add_ele", 1, 1⟩ (by decide)

/-- C8: raw event times 1700000000 (seconds) and 1700000000000 (ms)
normalize to the same instant, hence receive the same tariff
classification, the same Skopje calendar-day key, and the aggregation step
puts both into the single bucket 2023-11-14 whose per-day maximum is that
common instant. -/
theorem c8_unit_correction :
    normalizeTs 1700000000 = 1700000000000 ∧
    normalizeTs 1700000000000 = 1700000000000 ∧
    isLowTariffAt (normalizeTs 1700000000) = isLowTariffAt (normalizeTs 1700000000000) ∧
    skopjeDateKey (normalizeTs 1700000000) = skopjeDateKey (normalizeTs 1700000000000) ∧
    (aggregate 2023 [⟨"add_ele", 1700000000, 500⟩, ⟨"add_ele", 1700000000000, 500⟩]).map
      Prod.fst = ["2023-11-14"] ∧
    (findAgg (aggregate 2023 [⟨"add_ele", 1700000000, 500⟩, ⟨"add_ele", 1700000000000, 500⟩])
      "2023-11-14").map (fun d => d.lastProcessedTimestamp) = some 1700000000000 := by
  refine ⟨by decide, by decide, by decide, by decide, by decide, by decide⟩

/-- C9: when no `add_ele` entry survives filtering, the run returns the
"no new logs" status and performs no write — the stored state is returned
exactly as it was. -/
theorem c9_empty_window_noop (cy : Int) (st : List BucketRow) (dev : String)
    (force : Option Int) (logs : List TuyaLogEntry)
    (h : survivingLogs st dev force logs = []) :
    processEnergyLogs cy st dev force logs = (st, "No new logs.") := by
  simp only [processEnergyLogs, h]
  rfl

/-- Witness for `c9_empty_window_noop`: a batch with no `add_ele` entry. -/
theorem c9_witness :
    processEnergyLogs 2023 [] "d" none [⟨"other_code", 5, 1⟩] = ([], "No new logs.") :=
  c9_empty_window_noop 2023 [] "d" none [⟨"other_code", 5, 1⟩] rfl

/-- The pagination loop issues at most `fetches + remaining` requests. -/
theorem fetchLoop_fetches_le (pages : Nat → TuyaApiResponse) (wantSize : Nat) :
    ∀ (remaining i : Nat) (result : TuyaLogResult) (nextRowKey : String)
      (fetches : Nat),
    (fetchLoop pages wantSize remaining i result nextRowKey fetches).2 ≤
      fetches + remaining := by
  intro remaining
  induction remaining with
  | zero =>
    intro i result nrk fetches
    simp [fetchLoop]
  | succ n ih =>
    intro i result nrk fetches
    unfold fetchLoop
    split
    · cases hres : (pages i).result with
      | none => simp
      | some r2 =>
        calc (fetchLoop pages wantSize n (i + 1) (mergeResult result r2)
                result.next_row_key (fetches + 1)).2
            ≤ (fetches + 1) + n := ih _ _ _ _
          _ ≤ fetches + (n + 1) := by omega
    · simp

/-- C10: `getDeviceLogs` issues at most `effMaxFetches maxFetches` page
requests in total — `maxFetches` itself when it is at least 1, and the
default ceiling 50 otherwise — so the paginated fetch always terminates. -/
theorem c10_pagination_bound (first : TuyaApiResponse)
    (pages : Nat → TuyaApiResponse) (size maxFetches : Nat)
    (out : Option TuyaLogResult × Nat)
    (h : getDeviceLogs first pages size maxFetches = Except.ok out) :
    out.2 ≤ effMaxFetches maxFetches := by
  have heff : 1 ≤ effMaxFetches maxFetches := by
    unfold effMaxFetches
    split <;> omega
  unfold getDeviceLogs at h
  split at h
  · cases h
  · split at h
    · cases h
      omega
    · cases h
      have := fetchLoop_fetches_le pages size (effMaxFetches maxFetches - 1) 0
        (by assumption) "" 1
      simp only
      omega

/-- Witness for `c10_pagination_bound`: one request on a bodyless success. -/
theorem c10_witness :
    ((none : Option TuyaLogResult), 1).2 ≤ effMaxFetches 0 :=
  c10_pagination_bound ⟨true, none⟩ (fun _ => ⟨true, none⟩) 0 0 (none, 1) rfl
